import Mathlib

/-!
Shallow embedding of the `shell` packer post-processor (the live second
generation, `PostProcessor` in `shell/post-processor.go`): the
configuration normalizer/validator `Configure` and the execution engine
`PostProcess`.  External effects (filesystem stat, temp-file creation,
file opens, subprocess execution, the ambient process environment) are
modelled as oracle fields of a `World` record; `PostProcess` is a pure
function of the world that also reports its observable event trace
(invocations performed, temp files created and removed).
-/

namespace ShellPP

/-- The single-quote character, `'` (ASCII 39). -/
def sq : Char := Char.ofNat 39

/-- The double-quote character, `"` (ASCII 34). -/
def dq : Char := Char.ofNat 34

/-- The string consisting of one single quote. -/
def sqS : String := String.mk [sq]

/-- The five-character escape sequence that Configure substitutes for a
single quote in an environment-variable value: close-quote,
double-quoted single quote, reopen-quote. -/
def escSeq : String := String.mk [sq, dq, sq, dq, sq]

/-- The raw configuration record decoded from the user's template
(second-generation `Config` struct).  Go nil-vs-empty slice distinction
is modelled with `Option (List String)`. -/
structure Config where
  outputPath : String := ""
  keepInputArtifact : Bool := false
  inline : Option (List String) := none
  inlineShebang : String := ""
  script : String := ""
  scripts : Option (List String) := none
  vars : Option (List String) := none
  packerBuildName : String := ""
  packerBuilderType : String := ""
deriving Repr, DecidableEq

/-- Split a character list at the first `=`, returning the parts before
and after it, or `none` when no `=` occurs. -/
def splitFirstEq : List Char → Option (List Char × List Char)
  | [] => none
  | c :: cs =>
    if c = '=' then some ([], cs)
    else
      match splitFirstEq cs with
      | some (k, v) => some (c :: k, v)
      | none => none

/-- Go's `strings.SplitN(s, "=", 2)`: one element when `s` has no `=`,
otherwise the part before the first `=` and everything after it. -/
def splitN2 (s : String) : List String :=
  match splitFirstEq s.data with
  | some (k, v) => [String.mk k, String.mk v]
  | none => [s]

/-- Model of `strings.Replace(v, quote, escSeq, -1)`: replace every single quote in
`v` by the close/insert/reopen escape sequence. -/
def escapeQuotes (v : String) : String :=
  String.mk (List.flatten (v.data.map fun c => if c = sq then escSeq.data else [c]))

/-- Normalize one raw environment-variable string: `none` when it is not
of the form `key=value` with a non-empty key, otherwise the stored
`key=escapedValue` pair. -/
def normVar (kv : String) : Option String :=
  match splitFirstEq kv.data with
  | none => none
  | some (k, v) =>
    if k = [] then none
    else some (String.mk k ++ "=" ++ escapeQuotes (String.mk v))

/-- Validation message for a script path whose `os.Stat` fails (the OS
cause text is abstracted to a fixed suffix). -/
def badScriptErr (p : String) : String :=
  "Bad script " ++ sqS ++ p ++ sqS ++ ": stat failed"

/-- Validation message for a malformed environment-variable string. -/
def badVarErr (kv : String) : String :=
  "Environment variable not in format " ++ sqS ++ "key=value" ++ sqS ++ ": " ++ kv

/-- Validation message when both `script` and `scripts` are set. -/
def onlyOneErr : String := "Only one of script or scripts can be specified."

/-- Validation message when neither scripts nor inline commands are given. -/
def missingErr : String := "Either a script file or inline script must be specified."

/-- Validation message when both scripts and inline commands are given. -/
def bothErr : String := "Only a script file or an inline script can be specified, not both."

/-- Normalize the inline field: an explicitly-empty slice becomes nil
(`if p.config.Inline != nil && len(p.config.Inline) == 0`). -/
def normInline (i : Option (List String)) : Option (List String) :=
  match i with
  | some [] => none
  | x => x

/-- The mutual-exclusion check between the single-script and
multi-script fields. -/
def scriptFieldErrs (c : Config) : List String :=
  if c.script ≠ "" ∧ (c.scripts.getD []).length > 0 then [onlyOneErr] else []

/-- The script list after collapsing a populated single-script field
into the multi-script sequence. -/
def collapsedScripts (c : Config) : List String :=
  if c.script ≠ "" then [c.script] else c.scripts.getD []

/-- The neither/both validation between scripts and inline commands,
applied after collapsing and inline normalization. -/
def exclusionErrs (scripts1 : List String) (inline : Option (List String)) : List String :=
  if scripts1.length = 0 ∧ inline = none then [missingErr]
  else if scripts1.length > 0 ∧ inline ≠ none then [bothErr]
  else []

/-- One error per script path whose stat fails, in list order. -/
def statErrs (statOk : String → Bool) (scripts1 : List String) : List String :=
  (scripts1.filter (fun p => !(statOk p))).map badScriptErr

/-- One error per malformed environment-variable string, in list order. -/
def varErrs (vars0 : List String) : List String :=
  (vars0.filter (fun kv => (normVar kv).isNone)).map badVarErr

/-- The aggregated validation-error list of `Configure`, in the order
the code appends: mutual-exclusion errors, then neither/both errors,
then per-script stat errors, then per-variable format errors. -/
def configureErrs (statOk : String → Bool) (c : Config) : List String :=
  scriptFieldErrs c ++
  exclusionErrs (collapsedScripts c) (normInline c.inline) ++
  statErrs statOk (collapsedScripts c) ++
  varErrs (c.vars.getD [])

/-- The `Configure` phase (second generation), with `os.Stat` modelled by the
oracle `statOk`.  Returns the normalized configuration together with the
aggregated validation-error list.  Valid variables are rewritten to
their quote-escaped form; malformed ones are left as-is (the run errors
out anyway). -/
def configure (statOk : String → Bool) (c : Config) : Config × List String :=
  ({ c with
      inline := normInline c.inline,
      inlineShebang := if c.inlineShebang = "" then "/bin/sh -e" else c.inlineShebang,
      scripts := some (collapsedScripts c),
      vars := some ((c.vars.getD []).map (fun kv => (normVar kv).getD kv)) },
   configureErrs statOk c)

/-- The error/success outcome of `Configure`: an error exactly when the
aggregated list is non-empty, otherwise the validated configuration. -/
def configureOutcome (statOk : String → Bool) (c : Config) : Except (List String) Config :=
  let r := configure statOk c
  if r.2.isEmpty then Except.ok r.1 else Except.error r.2

/-- An artifact, reduced to what the engine consumes: its file list. -/
structure Artifact where
  files : List String
deriving Repr, DecidableEq

/-- Outcome of one `cmd.Run()` call: success with captured stdout and
stderr, or failure (non-zero exit or spawn error) with captured stderr. -/
inductive RunRes where
  | ok (stdout stderr : String)
  | fail (stderr : String)
deriving Repr, DecidableEq

/-- Whether a subprocess outcome is a success. -/
def RunRes.isOk : RunRes → Bool
  | RunRes.ok _ _ => true
  | RunRes.fail _ => false

/-- The external world as `PostProcess` observes it: the temp-file name
`ioutil.TempFile` would return (`none` = creation fails), per-command
buffered-write success, flush success, per-path `os.Open` success, the
subprocess outcome for each (script path, artifact path) pair, and the
ambient process environment `os.Environ()`. -/
structure World where
  tempName : Option String
  writeOk : Nat → Bool
  flushOk : Bool
  openOk : String → Bool
  runRes : String → String → RunRes
  ambient : List String

/-- One subprocess invocation actually performed: the script path, the
artifact path, and the environment handed to the subprocess. -/
structure Invocation where
  script : String
  artifact : String
  env : List String
deriving Repr, DecidableEq

/-- The observable result of one `PostProcess` call: the returned
triple `(artifact, keep, error)` plus the event trace — invocations
performed in order, temp files created, temp files removed, the working
script list used for execution, and the temp-script content successfully
flushed (when any). -/
structure PPResult where
  artifact : Option Artifact
  keep : Bool
  error : Option String
  invocations : List Invocation
  tempCreated : List String
  tempRemoved : List String
  workingScripts : List String
  tempContent : Option String
deriving Repr, DecidableEq

/-- Go's `strings.TrimSpace`: drop leading and trailing whitespace. -/
def trimSpace (s : String) : String :=
  String.mk (((s.data.dropWhile Char.isWhitespace).reverse.dropWhile Char.isWhitespace).reverse)

/-- The explicit environment-variable slice built by `PostProcess`: the
two derived variables, single-quoted, followed by the normalized
user-supplied assignments. -/
def envVarsOf (c : Config) : List String :=
  ("PACKER_BUILD_NAME=" ++ sqS ++ c.packerBuildName ++ sqS) ::
  ("PACKER_BUILDER_TYPE=" ++ sqS ++ c.packerBuilderType ++ sqS) ::
  c.vars.getD []

/-- The environment handed to every subprocess:
`cmd.Env = append(os.Environ(), envVars...)`. -/
def cmdEnvOf (w : World) (c : Config) : List String :=
  w.ambient ++ envVarsOf c

/-- The key of a `key=value` environment entry (everything before the
first `=`; the whole entry when it has no `=`). -/
def envKey (entry : String) : String :=
  match splitFirstEq entry.data with
  | some (k, _) => String.mk k
  | none => entry

/-- The value of a `key=value` environment entry, when it has one. -/
def envVal (entry : String) : Option String :=
  match splitFirstEq entry.data with
  | some (_, v) => some (String.mk v)
  | none => none

/-- Last-wins lookup of key `k` in an environment list: the value of the
last entry whose key is `k`.  This models how a POSIX shell imports an
environ block that carries duplicate keys (later entries overwrite
earlier ones). -/
def lookupLast (env : List String) (k : String) : Option String :=
  match env.reverse.find? (fun e => envKey e == k) with
  | some e => envVal e
  | none => none

/-- Whether some entry of `env` has key `k`. -/
def hasKey (env : List String) (k : String) : Bool :=
  env.any (fun e => envKey e == k)

/-- The value a spawned script observes for variable `k` when `env` is
handed to `execve`: the environment strings pass to the child verbatim —
no shell ever re-parses quoting inside an inherited value. -/
def observedEnvValue (env : List String) (k : String) : Option String :=
  lookupLast env k

/-- Execution error message when `os.Open` on a script path fails (the
OS cause text embeds the path). -/
def openErr (p : String) : String := "Error opening shell script: " ++ p

/-- Execution error message on subprocess failure: embeds the
whitespace-trimmed captured stderr. -/
def execErr (stderr : String) : String :=
  "Error executing script: " ++ trimSpace stderr

/-- Error message for temp-script preparation failures. -/
def prepErr : String := "Error preparing shell script: write failed"

/-- The inner loop body for one artifact: run each script in order
against `art`, stopping at the first open failure or run failure.
Returns the invocations performed and the error, if any. -/
def runScriptsForArt (w : World) (env : List String) (art : String) :
    List String → List Invocation × Option String
  | [] => ([], none)
  | path :: rest =>
    if !(w.openOk path) then ([], some (openErr path))
    else
      match w.runRes path art with
      | RunRes.fail stderr => ([⟨path, art, env⟩], some (execErr stderr))
      | RunRes.ok _ _ =>
        ((⟨path, art, env⟩ : Invocation) :: (runScriptsForArt w env art rest).1,
         (runScriptsForArt w env art rest).2)

/-- The outer loop: artifacts outermost, scripts innermost, aborting the
whole nest at the first failure. -/
def runArtsLoop (w : World) (env : List String) (scripts : List String) :
    List String → List Invocation × Option String
  | [] => ([], none)
  | art :: arts =>
    match (runScriptsForArt w env art scripts).2 with
    | some e => ((runScriptsForArt w env art scripts).1, some e)
    | none =>
      ((runScriptsForArt w env art scripts).1 ++ (runArtsLoop w env scripts arts).1,
       (runArtsLoop w env scripts arts).2)

/-- Index of the first inline command whose buffered write fails, if
any (the shebang write's error is ignored by the code). -/
def firstWriteFail (writeOk : Nat → Bool) (n : Nat) : Option Nat :=
  (List.range n).find? (fun i => !(writeOk i))

/-- The content written to the synthesized temp script: the shebang line
then each inline command, every line newline-terminated. -/
def scriptContent (shebang : String) (cmds : List String) : String :=
  "#!" ++ shebang ++ "\n" ++ String.join (cmds.map (· ++ "\n"))

/-- The `PostProcess` phase (second generation).  Copies the configured script
list; when inline commands are present, creates the temp script
(scheduling its removal on every subsequent exit path), writes the
shebang and commands, and appends its path to the working list; builds
the subprocess environment; then runs the artifact × script cross
product, aborting at the first failure.  On success returns the input
artifact and the configured keep flag; on any error returns a nil
artifact and a false keep flag. -/
def postProcess (w : World) (c : Config) (a : Artifact) : PPResult :=
  match c.inline with
  | none =>
    match (runArtsLoop w (cmdEnvOf w c) (c.scripts.getD []) a.files).2 with
    | some e =>
      ⟨none, false, some e, (runArtsLoop w (cmdEnvOf w c) (c.scripts.getD []) a.files).1,
       [], [], c.scripts.getD [], none⟩
    | none =>
      ⟨some a, c.keepInputArtifact, none,
       (runArtsLoop w (cmdEnvOf w c) (c.scripts.getD []) a.files).1,
       [], [], c.scripts.getD [], none⟩
  | some cmds =>
    match w.tempName with
    | none => ⟨none, false, some prepErr, [], [], [], c.scripts.getD [], none⟩
    | some t =>
      match firstWriteFail w.writeOk cmds.length with
      | some _ =>
        ⟨none, false, some prepErr, [], [t], [t], c.scripts.getD [] ++ [t], none⟩
      | none =>
        if w.flushOk then
          match (runArtsLoop w (cmdEnvOf w c) (c.scripts.getD [] ++ [t]) a.files).2 with
          | some e =>
            ⟨none, false, some e,
             (runArtsLoop w (cmdEnvOf w c) (c.scripts.getD [] ++ [t]) a.files).1,
             [t], [t], c.scripts.getD [] ++ [t],
             some (scriptContent c.inlineShebang cmds)⟩
          | none =>
            ⟨some a, c.keepInputArtifact, none,
             (runArtsLoop w (cmdEnvOf w c) (c.scripts.getD [] ++ [t]) a.files).1,
             [t], [t], c.scripts.getD [] ++ [t],
             some (scriptContent c.inlineShebang cmds)⟩
        else ⟨none, false, some prepErr, [], [t], [t], c.scripts.getD [] ++ [t], none⟩

/-- The composed command string the engine hands to `sh -c`:
`strings.Join([]string{path, art}, " ")`. -/
def composedCommand (path art : String) : String :=
  path ++ " " ++ art

/-- Whether a character belongs to the default IFS of a POSIX shell:
space, tab or newline — the characters on which `sh` field-splits an
unquoted command line. -/
def isShWhitespace (c : Char) : Bool :=
  (c == ' ') || (c == Char.ofNat 9) || (c == Char.ofNat 10)

/-- Characters that are special to a POSIX shell in a command word:
operators, substitution and quoting introducers, glob characters,
comment/tilde/assignment markers (backquote, backslash and the two
quote characters are written via their code points). -/
def shMetaChars : List Char :=
  ['|', '&', ';', '<', '>', '(', ')', '$', Char.ofNat 96, '\\', dq, sq,
   '*', '?', '[', ']', '#', '~', '=']

/-- Whether a character is special to a POSIX shell in a command word. -/
def isShMeta (c : Char) : Bool := shMetaChars.contains c

/-- Split a character list into fields at the characters satisfying
`p` (keeping empty fields), as a base for POSIX field splitting. -/
def fieldSplit (p : Char → Bool) : List Char → List (List Char)
  | [] => [[]]
  | c :: cs =>
    if p c then [] :: fieldSplit p cs
    else
      match fieldSplit p cs with
      | [] => [[c]]
      | wd :: ws => (c :: wd) :: ws

/-- The simple command `sh -c` parses a command string into, modelled
on the quote-free fragment: when the string contains any shell
metacharacter the model makes no assertion (`none` — quoting,
substitution, globbing and operators are outside the fragment);
otherwise the shell field-splits the string on default-IFS whitespace,
dropping empty fields, and runs the first word with the remaining words
as its arguments. -/
def shSimpleParse (s : String) : Option (List String) :=
  if s.data.any isShMeta then none
  else some (((fieldSplit isShWhitespace s.data).map String.mk).filter (fun wd => !wd.isEmpty))

/-- The argument vector of the direct invocation the spec describes:
the script run with the artifact path as its single argument. -/
def directArgv (path art : String) : List String := [path, art]

/-- Whether a `Configure` outcome is an error. -/
def isErr : Except (List String) Config → Bool
  | Except.error _ => true
  | Except.ok _ => false

/-! ### Helper lemmas about the execution loops -/

/-- When every script opens and runs successfully against `art`, the
inner loop performs one invocation per script, in order, and reports no
error. -/
theorem runScriptsForArt_ok (w : World) (env : List String) (art : String)
    (ss : List String)
    (h : ∀ s ∈ ss, w.openOk s = true ∧ (w.runRes s art).isOk = true) :
    runScriptsForArt w env art ss = (ss.map (fun s => ⟨s, art, env⟩), none) := by
  induction ss with
  | nil => rfl
  | cons path rest ih =>
    have hp := h path (by simp)
    have hrest := ih (fun s hs => h s (by simp [hs]))
    cases hR : w.runRes path art with
    | ok o e => simp [runScriptsForArt, hp.1, hR, hrest]
    | fail e =>
      exfalso
      have h2 := hp.2
      rw [hR] at h2
      simp [RunRes.isOk] at h2

/-- When the scripts before `sf` succeed against `art` and `sf` opens
but its run fails, the inner loop performs exactly the successful
invocations then the failing one, and reports the execution error built
from `sf`'s trimmed stderr. -/
theorem runScriptsForArt_fail (w : World) (env : List String) (art : String)
    (ss1 : List String) (sf : String) (ss2 : List String) (e : String)
    (h1 : ∀ s ∈ ss1, w.openOk s = true ∧ (w.runRes s art).isOk = true)
    (h2 : w.openOk sf = true)
    (h3 : w.runRes sf art = RunRes.fail e) :
    runScriptsForArt w env art (ss1 ++ sf :: ss2) =
      ((ss1.map (fun s => ⟨s, art, env⟩)) ++ [⟨sf, art, env⟩], some (execErr e)) := by
  induction ss1 with
  | nil => simp [runScriptsForArt, h2, h3]
  | cons path rest ih =>
    have hp := h1 path (by simp)
    have hrest := ih (fun s hs => h1 s (by simp [hs]))
    cases hR : w.runRes path art with
    | ok o er => simp [runScriptsForArt, hp.1, hR, hrest]
    | fail er =>
      exfalso
      have hx := hp.2
      rw [hR] at hx
      simp [RunRes.isOk] at hx

/-- When every (artifact, script) pair opens and runs successfully, the
nested loops perform the full cross product — artifacts outer, scripts
inner — and report no error. -/
theorem runArtsLoop_ok (w : World) (env : List String) (ss : List String)
    (arts : List String)
    (h : ∀ a ∈ arts, ∀ s ∈ ss, w.openOk s = true ∧ (w.runRes s a).isOk = true) :
    runArtsLoop w env ss arts =
      (arts.flatMap (fun a => ss.map (fun s => ⟨s, a, env⟩)), none) := by
  induction arts with
  | nil => rfl
  | cons art rest ih =>
    have hart := runScriptsForArt_ok w env art ss (h art (by simp))
    have hrest := ih (fun a ha => h a (by simp [ha]))
    simp [runArtsLoop, hart, hrest]

/-- When all pairs strictly before `(af, sf)` in cross-product order
succeed and `sf` fails against `af`, the nested loops perform exactly
the pairs up to and including `(af, sf)` and report `sf`'s execution
error; no later pair is attempted. -/
theorem runArtsLoop_fail (w : World) (env : List String)
    (as1 : List String) (af : String) (as2 : List String)
    (ss1 : List String) (sf : String) (ss2 : List String) (e : String)
    (h1 : ∀ a ∈ as1, ∀ s ∈ ss1 ++ sf :: ss2, w.openOk s = true ∧ (w.runRes s a).isOk = true)
    (h2 : ∀ s ∈ ss1, w.openOk s = true ∧ (w.runRes s af).isOk = true)
    (h3 : w.openOk sf = true)
    (h4 : w.runRes sf af = RunRes.fail e) :
    runArtsLoop w env (ss1 ++ sf :: ss2) (as1 ++ af :: as2) =
      ((as1.flatMap (fun a => (ss1 ++ sf :: ss2).map (fun s => ⟨s, a, env⟩))) ++
         (ss1.map (fun s => ⟨s, af, env⟩)) ++ [⟨sf, af, env⟩],
       some (execErr e)) := by
  induction as1 with
  | nil =>
    have hf := runScriptsForArt_fail w env af ss1 sf ss2 e h2 h3 h4
    simp [runArtsLoop, hf]
  | cons art rest ih =>
    have hart := runScriptsForArt_ok w env art (ss1 ++ sf :: ss2) (h1 art (by simp))
    have hrest := ih (fun a ha => h1 a (by simp [ha]))
    simp [runArtsLoop, hart, hrest]

/-- Every invocation the inner loop records carries the environment it
was handed. -/
theorem runScriptsForArt_env (w : World) (env : List String) (art : String)
    (ss : List String) (inv : Invocation)
    (h : inv ∈ (runScriptsForArt w env art ss).1) : inv.env = env := by
  induction ss with
  | nil => simp [runScriptsForArt] at h
  | cons path rest ih =>
    rw [runScriptsForArt] at h
    split at h
    · simp at h
    · split at h
      · simp at h
        rw [h]
      · simp at h
        rcases h with h | h
        · rw [h]
        · exact ih h

/-- Every invocation the nested loops record carries the environment it
was handed. -/
theorem runArtsLoop_env (w : World) (env : List String) (ss : List String)
    (arts : List String) (inv : Invocation)
    (h : inv ∈ (runArtsLoop w env ss arts).1) : inv.env = env := by
  induction arts with
  | nil => simp [runArtsLoop] at h
  | cons art rest ih =>
    rw [runArtsLoop] at h
    split at h
    · exact runScriptsForArt_env w env art ss inv h
    · simp at h
      rcases h with h | h
      · exact runScriptsForArt_env w env art ss inv h
      · exact ih h

/-- Every invocation `PostProcess` performs is handed the environment
`os.Environ() ++ envVars`. -/
theorem postProcess_inv_env (w : World) (c : Config) (a : Artifact)
    (inv : Invocation) (h : inv ∈ (postProcess w c a).invocations) :
    inv.env = cmdEnvOf w c := by
  rw [postProcess] at h
  split at h
  · split at h
    · exact runArtsLoop_env w (cmdEnvOf w c) (c.scripts.getD []) a.files inv h
    · exact runArtsLoop_env w (cmdEnvOf w c) (c.scripts.getD []) a.files inv h
  · split at h
    · simp at h
    · split at h
      · simp at h
      · split at h
        · split at h
          · exact runArtsLoop_env w (cmdEnvOf w c) _ a.files inv h
          · exact runArtsLoop_env w (cmdEnvOf w c) _ a.files inv h
        · simp at h

/-- Last-wins lookup in an appended environment agrees with lookup in
the appended suffix whenever the key occurs in the suffix. -/
theorem lookupLast_append_right (xs ys : List String) (k : String)
    (h : hasKey ys k = true) :
    lookupLast (xs ++ ys) k = lookupLast ys k := by
  unfold lookupLast
  rw [List.reverse_append, List.find?_append]
  have hsome : (ys.reverse.find? (fun e => envKey e == k)).isSome = true := by
    rw [List.find?_isSome]
    unfold hasKey at h
    rw [List.any_eq_true] at h
    obtain ⟨e, he, hk⟩ := h
    exact ⟨e, by simp [he], hk⟩
  obtain ⟨e, he⟩ := Option.isSome_iff_exists.mp hsome
  rw [he]
  rfl

/-- When every buffered write succeeds, no write fails. -/
theorem firstWriteFail_none (writeOk : Nat → Bool) (n : Nat)
    (h : ∀ i, writeOk i = true) : firstWriteFail writeOk n = none := by
  unfold firstWriteFail
  rw [List.find?_eq_none]
  intro i _
  simp [h i]

/-! ### Helper lemmas about POSIX field splitting -/

/-- Field-splitting a separator-free character list yields that list as
the single field. -/
theorem fieldSplit_no_sep (p : Char → Bool) (xs : List Char)
    (h : ∀ c ∈ xs, p c = false) :
    fieldSplit p xs = [xs] := by
  induction xs with
  | nil => rfl
  | cons c cs ih =>
    have hc := h c (by simp)
    have hcs := ih (fun x hx => h x (by simp [hx]))
    simp [fieldSplit, hc, hcs]

/-- Field-splitting a list whose first separator occurrence follows the
separator-free prefix `xs` peels `xs` off as the first field. -/
theorem fieldSplit_append_sep (p : Char → Bool) (c0 : Char) (xs ys : List Char)
    (hc0 : p c0 = true) (h : ∀ c ∈ xs, p c = false) :
    fieldSplit p (xs ++ c0 :: ys) = xs :: fieldSplit p ys := by
  induction xs with
  | nil => simp [fieldSplit, hc0]
  | cons c cs ih =>
    have hc := h c (by simp)
    have hcs := ih (fun x hx => h x (by simp [hx]))
    simp [fieldSplit, hc, hcs]

/-! ### Concrete instances used by witnesses -/

/-- A world where every open and every run succeeds. -/
def wOk : World :=
  ⟨some "/tmp/packer-shell123", fun _ => true, true, fun _ => true,
   fun _ _ => RunRes.ok "" "", ["HOME=/root"]⟩

/-- A world where script `S1` fails against artifact `A` with stderr
`" boom "`, and everything else succeeds. -/
def wFail : World :=
  ⟨some "/tmp/packer-shell123", fun _ => true, true, fun _ => true,
   fun p a => if p = "S1" ∧ a = "A" then RunRes.fail " boom " else RunRes.ok "" "",
   ["HOME=/root"]⟩

/-- A validated configuration with two explicit scripts. -/
def cfgTwoScripts : Config :=
  { scripts := some ["S1", "S2"], packerBuildName := "build", packerBuilderType := "type" }

/-! ### Claims -/

/-- C1: for every artifact list and validated script list whose pairs
all open and run successfully, `PostProcess` performs the artifact ×
script cross product in nested order — artifacts outer, scripts inner. -/
theorem c1_cross_product_order (w : World) (c : Config) (arts : List String)
    (hinline : c.inline = none)
    (hok : ∀ a ∈ arts, ∀ s ∈ c.scripts.getD [],
      w.openOk s = true ∧ (w.runRes s a).isOk = true) :
    (postProcess w c ⟨arts⟩).invocations.map (fun i => (i.script, i.artifact)) =
      arts.flatMap (fun a => (c.scripts.getD []).map (fun s => (s, a))) := by
  have hloop := runArtsLoop_ok w (cmdEnvOf w c) (c.scripts.getD []) arts hok
  simp [postProcess, hinline, hloop, List.map_flatMap, Function.comp_def]

/-- Witness for C1: artifacts `[A, B]`, scripts `[S1, S2]` give exactly
`S1(A), S2(A), S1(B), S2(B)`. -/
theorem c1_witness :
    (postProcess wOk cfgTwoScripts ⟨["A", "B"]⟩).invocations.map
        (fun i => (i.script, i.artifact)) =
      [("S1", "A"), ("S2", "A"), ("S1", "B"), ("S2", "B")] := by
  have h := c1_cross_product_order wOk cfgTwoScripts ["A", "B"] rfl (by decide)
  rw [h]
  rfl

/-- C2: when all pairs strictly before `(af, sf)` in cross-product
order succeed and script `sf` fails against artifact `af`, the run
aborts at that pair: the returned error embeds the failing invocation's
(whitespace-trimmed) captured stderr and no later pair is ever run. -/
theorem c2_fail_fast (w : World) (c : Config)
    (as1 : List String) (af : String) (as2 : List String)
    (ss1 : List String) (sf : String) (ss2 : List String) (e : String)
    (hinline : c.inline = none)
    (hscripts : c.scripts.getD [] = ss1 ++ sf :: ss2)
    (h1 : ∀ a ∈ as1, ∀ s ∈ ss1 ++ sf :: ss2,
      w.openOk s = true ∧ (w.runRes s a).isOk = true)
    (h2 : ∀ s ∈ ss1, w.openOk s = true ∧ (w.runRes s af).isOk = true)
    (h3 : w.openOk sf = true)
    (h4 : w.runRes sf af = RunRes.fail e) :
    (postProcess w c ⟨as1 ++ af :: as2⟩).error = some (execErr e) ∧
    (postProcess w c ⟨as1 ++ af :: as2⟩).invocations.map
        (fun i => (i.script, i.artifact)) =
      (as1.flatMap (fun a => (ss1 ++ sf :: ss2).map (fun s => (s, a)))) ++
        (ss1.map (fun s => (s, af))) ++ [(sf, af)] := by
  have hloop := runArtsLoop_fail w (cmdEnvOf w c) as1 af as2 ss1 sf ss2 e h1 h2 h3 h4
  constructor
  · simp [postProcess, hinline, hscripts, hloop]
  · simp [postProcess, hinline, hscripts, hloop, List.map_flatMap, Function.comp_def]

/-- Witness for C2: with `S1` failing on `A`, only `S1(A)` runs and the
error carries the trimmed stderr `boom`. -/
theorem c2_witness :
    (postProcess wFail cfgTwoScripts ⟨["A", "B"]⟩).error =
      some ("Error executing script: " ++ "boom") ∧
    (postProcess wFail cfgTwoScripts ⟨["A", "B"]⟩).invocations.map
        (fun i => (i.script, i.artifact)) = [("S1", "A")] := by
  have h := c2_fail_fast wFail cfgTwoScripts [] "A" ["B"] [] "S1" ["S2"] " boom "
    rfl rfl (by decide) (by decide) (by decide) (by decide)
  refine ⟨?_, ?_⟩
  · have h1 := h.1
    simp only [List.nil_append] at h1
    rw [h1]
    decide
  · have h2 := h.2
    simp only [List.nil_append] at h2
    rw [h2]
    simp

/-- C10: `PostProcess` returns the input artifact together with the
configured keep flag when no failure occurred, and a nil artifact with
a false keep flag on any error. -/
theorem c10_return_contract (w : World) (c : Config) (a : Artifact) :
    ((postProcess w c a).error = none →
      (postProcess w c a).artifact = some a ∧
      (postProcess w c a).keep = c.keepInputArtifact) ∧
    ((postProcess w c a).error ≠ none →
      (postProcess w c a).artifact = none ∧ (postProcess w c a).keep = false) := by
  unfold postProcess
  split
  · split <;> simp
  · split
    · simp
    · split
      · simp
      · split
        · split <;> simp
        · simp

/-- A validated configuration with one script and `keep_input_artifact`
set. -/
def cfgKeep : Config :=
  { scripts := some ["S1"], keepInputArtifact := true }

/-- Witness for C10: a clean run returns the input artifact and the
configured keep flag. -/
theorem c10_witness :
    (postProcess wOk cfgKeep ⟨["A"]⟩).artifact = some ⟨["A"]⟩ ∧
    (postProcess wOk cfgKeep ⟨["A"]⟩).keep = true := by
  have h := (c10_return_contract wOk cfgKeep ⟨["A"]⟩).1 (by decide)
  exact ⟨h.1, h.2⟩

/-- C8: when inline commands are configured and the temp-file creation
call succeeds, exactly one temporary script is created and it is
removed on every exit path — write failure, flush failure, open or
execution failure partway through, or normal completion (the removal is
scheduled by `defer` immediately after creation). -/
theorem c8_temp_file_lifecycle (w : World) (c : Config) (a : Artifact)
    (cmds : List String) (t : String)
    (hc : c.inline = some cmds) (ht : w.tempName = some t) :
    (postProcess w c a).tempCreated = [t] ∧ (postProcess w c a).tempRemoved = [t] := by
  unfold postProcess
  rw [hc, ht]
  dsimp only
  split
  · exact ⟨rfl, rfl⟩
  · split
    · split <;> exact ⟨rfl, rfl⟩
    · exact ⟨rfl, rfl⟩

/-- A raw configuration with one inline command and no explicit
scripts. -/
def cfgInline : Config :=
  { inline := some ["echo hi"], inlineShebang := "/bin/sh -e", scripts := some [] }

/-- Witness for C8: with `S1` failing (execution fails partway
through), the temp script is still created once and removed. -/
theorem c8_witness :
    (postProcess wFail cfgInline ⟨["A"]⟩).tempCreated = ["/tmp/packer-shell123"] ∧
    (postProcess wFail cfgInline ⟨["A"]⟩).tempRemoved = ["/tmp/packer-shell123"] :=
  c8_temp_file_lifecycle wFail cfgInline ⟨["A"]⟩ ["echo hi"] "/tmp/packer-shell123" rfl rfl

/-- C7: with inline commands populated, the synthesized temp script's
content is `#!` + the configured shebang line + newline followed by
each inline command newline-terminated, in order, for every shebang
value — where the configured shebang is the raw one, defaulting to
`/bin/sh -e` only when the raw value is empty; and the temp path is
appended to the working script list after the configured scripts, which
are copied unchanged. -/
theorem c7_inline_script_synthesis (statOk : String → Bool) (w : World)
    (c0 : Config) (cmds : List String) (t : String) (a : Artifact)
    (hc : c0.inline = some cmds) (hcmds : cmds ≠ [])
    (ht : w.tempName = some t)
    (hw : ∀ i, w.writeOk i = true) (hf : w.flushOk = true) :
    (configure statOk c0).1.inlineShebang =
      (if c0.inlineShebang = "" then "/bin/sh -e" else c0.inlineShebang) ∧
    (postProcess w (configure statOk c0).1 a).tempContent =
      some ("#!" ++ (configure statOk c0).1.inlineShebang ++ "\n" ++
        String.join (cmds.map (fun s => s ++ "\n"))) ∧
    (postProcess w (configure statOk c0).1 a).workingScripts =
      (configure statOk c0).1.scripts.getD [] ++ [t] := by
  have hinline2 : (configure statOk c0).1.inline = some cmds := by
    cases cmds with
    | nil => exact absurd rfl hcmds
    | cons x xs => simp [configure, normInline, hc]
  have hwf := firstWriteFail_none w.writeOk cmds.length hw
  refine ⟨rfl, ?_, ?_⟩
  · unfold postProcess
    rw [hinline2, ht]
    dsimp only
    rw [hwf]
    dsimp only
    rw [if_pos hf]
    split <;> rfl
  · unfold postProcess
    rw [hinline2, ht]
    dsimp only
    rw [hwf]
    dsimp only
    rw [if_pos hf]
    split <;> rfl

/-- A raw configuration with two inline commands and a custom
`inline_shebang`. -/
def cfgInlineCustom : Config :=
  { inline := some ["echo hi", "echo bye"], inlineShebang := "/bin/bash -x" }

/-- Witness for C7: the custom shebang is kept (not replaced by the
default), the synthesized script is
`#!/bin/bash -x\necho hi\necho bye\n`, and the working list is the
configured scripts plus the temp path. -/
theorem c7_witness :
    (configure (fun _ => true) cfgInlineCustom).1.inlineShebang = "/bin/bash -x" ∧
    (postProcess wOk (configure (fun _ => true) cfgInlineCustom).1 ⟨["A"]⟩).tempContent =
      some ("#!" ++ "/bin/bash -x" ++ "\n" ++
        String.join (["echo hi", "echo bye"].map (fun s => s ++ "\n"))) ∧
    (postProcess wOk (configure (fun _ => true) cfgInlineCustom).1 ⟨["A"]⟩).workingScripts =
      (configure (fun _ => true) cfgInlineCustom).1.scripts.getD [] ++
        ["/tmp/packer-shell123"] := by
  have h := c7_inline_script_synthesis (fun _ => true) wOk cfgInlineCustom
    ["echo hi", "echo bye"] "/tmp/packer-shell123" ⟨["A"]⟩
    rfl (by decide) rfl (fun i => rfl) rfl
  refine ⟨?_, ?_, h.2.2⟩
  · rw [h.1]
    decide
  · rw [h.2.1]
    decide

/-- The raw C3 environment-variable string `NAME=O'Brien`. -/
def rawVarC3 : String := "NAME=O" ++ sqS ++ "Brien"

/-- A raw configuration carrying `NAME=O'Brien` and one script. -/
def cfgRawC3 : Config := { script := "s.sh", vars := some [rawVarC3] }

/-- C3 (refuting the round trip): with the raw value `O'Brien`,
Configure validates successfully and stores the escaped form; the
environment is handed to the subprocess verbatim (`cmd.Env`), so the
executed script observes `O'"'"'Brien` for `NAME` — not the original
literal value.  No shell ever re-interprets the quoting inside an
inherited environment value, so the escaping is never undone. -/
theorem c3_escaped_value_observed :
    (configure (fun _ => true) cfgRawC3).2 = [] ∧
    (postProcess wOk (configure (fun _ => true) cfgRawC3).1 ⟨["a.txt"]⟩).error = none ∧
    ((postProcess wOk (configure (fun _ => true) cfgRawC3).1 ⟨["a.txt"]⟩).invocations.map
        (fun i => observedEnvValue i.env "NAME")) =
      [some ("O" ++ escSeq ++ "Brien")] ∧
    ("O" ++ escSeq ++ "Brien" : String) ≠ "O" ++ sqS ++ "Brien" := by
  decide

/-- C4: Configure validates successfully only when exactly one of
{non-empty collapsed script list, populated inline commands} holds; a
present-but-empty inline list counts as absent; neither populated
reports the missing-specification error and both populated reports the
both-kinds error. -/
theorem c4_exactly_one (statOk : String → Bool) (c : Config) :
    ((configure statOk c).2 = [] →
      (((configure statOk c).1.scripts.getD [] ≠ [] ∧
          (configure statOk c).1.inline = none) ∨
       ((configure statOk c).1.scripts.getD [] = [] ∧
          (configure statOk c).1.inline ≠ none))) ∧
    (collapsedScripts c = [] ∧ normInline c.inline = none →
      missingErr ∈ (configure statOk c).2) ∧
    (collapsedScripts c ≠ [] ∧ normInline c.inline ≠ none →
      bothErr ∈ (configure statOk c).2) ∧
    (c.inline = some [] → (configure statOk c).1.inline = none) := by
  have hs : (configure statOk c).1.scripts.getD [] = collapsedScripts c := rfl
  have hi : (configure statOk c).1.inline = normInline c.inline := rfl
  refine ⟨?_, ?_, ?_, ?_⟩
  · intro h
    rw [hs, hi]
    have h2 : configureErrs statOk c = [] := h
    unfold configureErrs at h2
    simp only [List.append_eq_nil] at h2
    have hex : exclusionErrs (collapsedScripts c) (normInline c.inline) = [] := h2.1.1.2
    unfold exclusionErrs at hex
    by_cases h1 : collapsedScripts c = []
    · refine Or.inr ⟨h1, ?_⟩
      intro hnone
      rw [if_pos ⟨List.length_eq_zero.mpr h1, hnone⟩] at hex
      exact absurd hex (by simp)
    · refine Or.inl ⟨h1, ?_⟩
      by_contra hnone
      have hcond1 : ¬ ((collapsedScripts c).length = 0 ∧ normInline c.inline = none) :=
        fun hc0 => h1 (List.length_eq_zero.mp hc0.1)
      have hlen : (collapsedScripts c).length > 0 :=
        Nat.pos_of_ne_zero (fun h0 => h1 (List.length_eq_zero.mp h0))
      rw [if_neg hcond1, if_pos ⟨hlen, hnone⟩] at hex
      exact absurd hex (by simp)
  · rintro ⟨h1, h2⟩
    show missingErr ∈ configureErrs statOk c
    unfold configureErrs
    have hex : exclusionErrs (collapsedScripts c) (normInline c.inline) = [missingErr] := by
      unfold exclusionErrs
      rw [if_pos ⟨List.length_eq_zero.mpr h1, h2⟩]
    rw [hex]
    simp
  · rintro ⟨h1, h2⟩
    show bothErr ∈ configureErrs statOk c
    unfold configureErrs
    have hcond1 : ¬ ((collapsedScripts c).length = 0 ∧ normInline c.inline = none) :=
      fun hc0 => h2 hc0.2
    have hlen : (collapsedScripts c).length > 0 :=
      Nat.pos_of_ne_zero (fun h0 => h1 (List.length_eq_zero.mp h0))
    have hex : exclusionErrs (collapsedScripts c) (normInline c.inline) = [bothErr] := by
      unfold exclusionErrs
      rw [if_neg hcond1, if_pos ⟨hlen, h2⟩]
    rw [hex]
    simp
  · intro h
    rw [hi, h]
    rfl

/-- Witness for C4: a configuration with one script and no inline
commands validates with no error, and indeed exactly the script side is
populated. -/
theorem c4_witness :
    ((configure (fun _ => true) cfgTwoScripts).1.scripts.getD [] ≠ [] ∧
      (configure (fun _ => true) cfgTwoScripts).1.inline = none) ∨
    ((configure (fun _ => true) cfgTwoScripts).1.scripts.getD [] = [] ∧
      (configure (fun _ => true) cfgTwoScripts).1.inline ≠ none) :=
  (c4_exactly_one (fun _ => true) cfgTwoScripts).1 (by decide)

/-- The script-error message embeds the path, so distinct paths yield
distinct, individually identifiable errors. -/
theorem badScriptErr_inj (p q : String) (h : badScriptErr p = badScriptErr q) : p = q := by
  unfold badScriptErr at h
  have hd := congrArg String.data h
  simp only [String.data_append, List.append_assoc] at hd
  have h1 := List.append_cancel_left hd
  have h2 := List.append_cancel_left h1
  have h3 := List.append_cancel_right h2
  exact congrArg String.mk h3

/-- The variable-error message embeds the raw string, so distinct raw
strings yield distinct, individually identifiable errors. -/
theorem badVarErr_inj (kv kv2 : String) (h : badVarErr kv = badVarErr kv2) : kv = kv2 := by
  unfold badVarErr at h
  have hd := congrArg String.data h
  simp only [String.data_append, List.append_assoc] at hd
  have h1 := List.append_cancel_left hd
  have h2 := List.append_cancel_left h1
  have h3 := List.append_cancel_left h2
  have h4 := List.append_cancel_left h3
  have h5 := List.append_cancel_left h4
  exact congrArg String.mk h5

/-- C9: Configure aggregates all violations: every unstat-able script
path and every malformed environment variable contributes its own
identifiable error to the aggregated list (no short-circuit), and
Configure returns an error exactly when the list is non-empty. -/
theorem c9_error_aggregation (statOk : String → Bool) (c : Config) :
    (∀ p ∈ collapsedScripts c, statOk p = false →
      badScriptErr p ∈ (configure statOk c).2) ∧
    (∀ kv ∈ c.vars.getD [], (normVar kv).isNone = true →
      badVarErr kv ∈ (configure statOk c).2) ∧
    (isErr (configureOutcome statOk c) = true ↔ (configure statOk c).2 ≠ []) ∧
    (∀ p q, badScriptErr p = badScriptErr q → p = q) ∧
    (∀ kv kv2, badVarErr kv = badVarErr kv2 → kv = kv2) := by
  refine ⟨?_, ?_, ?_, badScriptErr_inj, badVarErr_inj⟩
  · intro p hp hstat
    show badScriptErr p ∈ configureErrs statOk c
    unfold configureErrs
    have hm : badScriptErr p ∈ statErrs statOk (collapsedScripts c) := by
      unfold statErrs
      exact List.mem_map_of_mem _ (List.mem_filter.mpr ⟨hp, by simp [hstat]⟩)
    simp [hm]
  · intro kv hkv hmal
    show badVarErr kv ∈ configureErrs statOk c
    unfold configureErrs
    have hm : badVarErr kv ∈ varErrs (c.vars.getD []) := by
      unfold varErrs
      exact List.mem_map_of_mem _ (List.mem_filter.mpr ⟨hkv, hmal⟩)
    simp [hm]
  · by_cases he : (configure statOk c).2 = []
    · simp [configureOutcome, isErr, he]
    · have hne : (configure statOk c).2.isEmpty = false := by
        cases hh : (configure statOk c).2 with
        | nil => exact absurd hh he
        | cons x xs => rfl
      simp [configureOutcome, isErr, hne, he]

/-- A raw configuration with an unstat-able script, a missing script,
and two malformed variables. -/
def cfgBadC9 : Config :=
  { scripts := some ["good.sh", "missing.sh"], vars := some ["=foo", "foobar", "ok=1"] }

/-- Witness for C9: both malformed variables and the unstat-able path
appear simultaneously in the aggregated error list, which is non-empty,
so the outcome is an error. -/
theorem c9_witness :
    badScriptErr "missing.sh" ∈ (configure (fun p => p = "good.sh") cfgBadC9).2 ∧
    badVarErr "=foo" ∈ (configure (fun p => p = "good.sh") cfgBadC9).2 ∧
    badVarErr "foobar" ∈ (configure (fun p => p = "good.sh") cfgBadC9).2 ∧
    isErr (configureOutcome (fun p => p = "good.sh") cfgBadC9) = true := by
  have h := c9_error_aggregation (fun p => p = "good.sh") cfgBadC9
  refine ⟨?_, ?_, ?_, ?_⟩
  · exact h.1 "missing.sh" (by decide) (by decide)
  · exact h.2.1 "=foo" (by decide) (by decide)
  · exact h.2.1 "foobar" (by decide) (by decide)
  · exact h.2.2.1.mpr (by decide)

/-- C5: every subprocess is handed the ambient environment followed by
the explicit slice — the two single-quoted derived variables first,
then the normalized assignments — so under last-wins import semantics
an explicit assignment takes precedence over any ambient entry with the
same key. -/
theorem c5_env_assembly (w : World) (c : Config) (a : Artifact) (inv : Invocation)
    (h : inv ∈ (postProcess w c a).invocations) :
    inv.env = w.ambient ++ envVarsOf c ∧
    envVarsOf c =
      ("PACKER_BUILD_NAME=" ++ sqS ++ c.packerBuildName ++ sqS) ::
        ("PACKER_BUILDER_TYPE=" ++ sqS ++ c.packerBuilderType ++ sqS) :: c.vars.getD [] ∧
    (∀ k, hasKey (envVarsOf c) k = true →
      lookupLast inv.env k = lookupLast (envVarsOf c) k) := by
  have he := postProcess_inv_env w c a inv h
  refine ⟨he, rfl, fun k hk => ?_⟩
  rw [he]
  exact lookupLast_append_right w.ambient (envVarsOf c) k hk

/-- The first invocation `wOk`/`cfgTwoScripts` performs. -/
def invC5 : Invocation := ⟨"S1", "A", cmdEnvOf wOk cfgTwoScripts⟩

/-- Witness for C5: in a performed invocation, the explicit
`PACKER_BUILD_NAME` wins over any ambient entry under last-wins lookup. -/
theorem c5_witness :
    lookupLast invC5.env "PACKER_BUILD_NAME" =
      lookupLast (envVarsOf cfgTwoScripts) "PACKER_BUILD_NAME" := by
  have h := c5_env_assembly wOk cfgTwoScripts ⟨["A"]⟩ invC5 (by decide)
  exact h.2.2 "PACKER_BUILD_NAME" (by decide)

/-- Counterexample to C6 as stated: an artifact path containing a space
is word-split by the composed `sh -c` command into two separate
arguments, so the invocation is not equivalent to running the script
with the artifact path as its single argument. -/
theorem c6_counterexample :
    shSimpleParse (composedCommand "s.sh" "a b") ≠ some (directArgv "s.sh" "a b") ∧
    shSimpleParse (composedCommand "s.sh" "a b") = some ["s.sh", "a", "b"] := by
  decide

/-- C6 (amended): the composed `sh -c` invocation is equivalent to the
direct script-with-one-argument invocation when both the script path
and the artifact path are non-empty and consist only of shell-literal
characters — no default-IFS whitespace (space, tab, newline) and no
POSIX shell metacharacter.  Paths containing whitespace are word-split
(see the counterexample); paths containing metacharacters are outside
the quote-free fragment the model covers, so no equivalence is asserted
for them. -/
theorem c6_equivalence_shell_literal (path art : String)
    (hp : path ≠ "") (ha : art ≠ "")
    (hps : ∀ c ∈ path.data, isShWhitespace c = false ∧ isShMeta c = false)
    (has : ∀ c ∈ art.data, isShWhitespace c = false ∧ isShMeta c = false) :
    shSimpleParse (composedCommand path art) = some (directArgv path art) := by
  unfold shSimpleParse composedCommand directArgv
  have hdata : (path ++ " " ++ art).data = path.data ++ (' ' :: art.data) := by
    rw [String.data_append, String.data_append]
    simp
  rw [hdata]
  have hmeta : ∀ c ∈ path.data ++ (' ' :: art.data), isShMeta c = false := by
    intro c hc
    rcases List.mem_append.mp hc with h | h
    · exact (hps c h).2
    · rcases List.mem_cons.mp h with h | h
      · rw [h]; decide
      · exact (has c h).2
  have hany : (path.data ++ (' ' :: art.data)).any isShMeta = false := by
    cases hav : (path.data ++ (' ' :: art.data)).any isShMeta with
    | false => rfl
    | true =>
      obtain ⟨x, hx, hpx⟩ := List.any_eq_true.mp hav
      rw [hmeta x hx] at hpx
      exact absurd hpx (by simp)
  rw [if_neg (by simp [hany])]
  rw [fieldSplit_append_sep isShWhitespace ' ' path.data art.data (by decide)
        (fun c hc => (hps c hc).1),
      fieldSplit_no_sep isShWhitespace art.data (fun c hc => (has c hc).1)]
  have hmk : ∀ s : String, String.mk s.data = s := fun _ => rfl
  have hpe : path.isEmpty = false := by
    cases hh : path.isEmpty with
    | false => rfl
    | true => exact absurd ((String.isEmpty_iff path).mp hh) hp
  have hae : art.isEmpty = false := by
    cases hh : art.isEmpty with
    | false => rfl
    | true => exact absurd ((String.isEmpty_iff art).mp hh) ha
  simp only [List.map, hmk]
  simp [List.filter, hpe, hae]

/-- Witness for the amended C6 at shell-literal concrete paths. -/
theorem c6_witness :
    shSimpleParse (composedCommand "s.sh" "a.txt") = some (directArgv "s.sh" "a.txt") :=
  c6_equivalence_shell_literal "s.sh" "a.txt" (by decide) (by decide) (by decide) (by decide)

end ShellPP
